import Mathlib

/-!
# Verification of `auto-display` (src/src/main.rs)

Shallow embedding of the X11 auto-display utility.  The program queries the
display server for three parallel catalogs (screen sizes, raw refresh-rate
values for a size, mode descriptors), selects the largest-area resolution and
its highest refresh rate, and issues one configuration-change request.

Modelling conventions:
* Server replies that arrive as possibly-null C pointers are `Option` values
  (`none` = null pointer).
* `io::ErrorKind` values used by the program become the `ErrKind` inductive.
* Machine integers are `Nat`/`Int` with explicit `% 2^32` where the source
  narrows (`as u32`) or where release-mode `u32` multiplication wraps.
* A Rust panic (division by zero, out-of-bounds index) is modelled as the
  `none` value of an outer `Option` layer around the function's result.
  The `#[cfg(debug_assertions)]` blocks are compiled out in release builds
  and are not modelled.
-/

namespace AutoDisplay

/-- The `io::ErrorKind` constructors the program uses. -/
inductive ErrKind where
  | notFound
  | other
  | invalidInput
  | invalidData
  | unsupported
deriving DecidableEq

/-- One raw entry of the `XRRSizes` reply: native signed integers
(`c_int` width/height) before the `u32::try_from` narrowing. -/
structure RawSize where
  width : Int
  height : Int
deriving DecidableEq

/-- `struct ScreenSize { width: u32, height: u32, size_index: i32 }`.
The index is the loop counter `i in 0..num_sizes`, hence non-negative. -/
structure ScreenSize where
  width : Nat
  height : Nat
  size_index : Nat
deriving DecidableEq

/-- `struct RefreshRate { freq: u32, freq_index: i16 }`.  `freq_index` is a
raw `c_short` value copied from the `XRRRates` reply. -/
structure RefreshRate where
  freq : Nat
  freq_index : Int
deriving DecidableEq

/-- The fields of `XRRModeInfo` that the program reads:
`id`, `width`, `height` (`c_uint`), `dotClock` (`c_ulong`),
`hTotal`, `vTotal` (`c_uint`). -/
structure ModeInfo where
  id : Nat
  width : Nat
  height : Nat
  dotClock : Nat
  hTotal : Nat
  vTotal : Nat
deriving DecidableEq

/-- The server-reported catalogs a run observes:
`rawSizes` is the `XRRSizes` reply, `rawRates i` the `XRRRates` reply for
size index `i`, and `modes` the `XRRGetScreenResources` mode list
(`none` = null pointer; the list length plays the role of `nmode`). -/
structure ServerState where
  rawSizes : Option (List RawSize)
  rawRates : Nat → Option (List Int)
  modes : Option (List ModeInfo)

/-- The data the driver passes toward `XRRSetScreenConfigAndRate`:
the selected size's index and dimensions and the selected rate. -/
structure Selection where
  size_index : Nat
  freq_index : Int
  width : Nat
  height : Nat
  freq : Nat
deriving DecidableEq

/-- `u32::try_from` on a native signed integer: succeeds exactly when the
value fits the unsigned 32-bit range. -/
def u32_try_from (v : Int) : Option Nat :=
  if 0 ≤ v ∧ v < 2 ^ 32 then some v.toNat else none

/-- The body of `get_sizes`' loop `for i in 0..num_sizes`: narrow each raw
width/height, pushing a `ScreenSize` carrying the loop index, or abort the
whole call with `Other` on the first narrowing failure. -/
def sizesLoop : List RawSize → Nat → Except ErrKind (List ScreenSize)
  | [], _ => .ok []
  | r :: rs, i =>
    match u32_try_from r.width, u32_try_from r.height with
    | some width, some height =>
      match sizesLoop rs (i + 1) with
      | .ok rest => .ok ({ width := width, height := height, size_index := i } :: rest)
      | .error e => .error e
    | _, _ => .error .other

/-- `get_sizes`: `NotFound` when the `XRRSizes` reply is null, otherwise the
narrowing loop over the reported entries.  (A non-null reply with zero
entries yields `Ok` of the empty catalog: the source only checks
`sizes.is_null()`.) -/
def get_sizes (rawSizes : Option (List RawSize)) : Except ErrKind (List ScreenSize) :=
  match rawSizes with
  | none => .error .notFound
  | some raws => sizesLoop raws 0

/-- The dimension test `mode_info.width == ssz.width && mode_info.height == ssz.height`. -/
def mode_matches (ssz : ScreenSize) (m : ModeInfo) : Bool :=
  m.width == ssz.width && m.height == ssz.height

/-- `(mode_info.dotClock / (mode_info.hTotal as u64 * mode_info.vTotal as u64)) as u32`:
truncating u64 division followed by truncation to u32.  Meaningful only when
`hTotal * vTotal ≠ 0`; the caller models the division-by-zero panic. -/
def mode_rate (m : ModeInfo) : Nat :=
  m.dotClock / (m.hTotal * m.vTotal) % 2 ^ 32

/-- The body of `get_freqs_by_screen_size`' loop `for i in 0..num_modes` with
running match counter `freq_index` (here `fi`).  For every descriptor the
refresh rate is computed first — a zero `hTotal * vTotal` is a division-by-zero
panic (`none`) regardless of the dimension test.  A descriptor matching the
target dimensions is paired with `safe_freqs[fi]` after the bounds check
`freq_index >= safe_freqs.len()`, which aborts with `InvalidData`. -/
def freqsLoop (ssz : ScreenSize) (safe_freqs : List Int) :
    List ModeInfo → Nat → Option (Except ErrKind (List RefreshRate))
  | [], _ => some (.ok [])
  | m :: ms, fi =>
    if m.hTotal * m.vTotal = 0 then
      none
    else if mode_matches ssz m then
      if h : safe_freqs.length ≤ fi then
        some (.error .invalidData)
      else
        match freqsLoop ssz safe_freqs ms (fi + 1) with
        | some (.ok rest) =>
          some (.ok ({ freq := mode_rate m,
                       freq_index := safe_freqs.get ⟨fi, Nat.lt_of_not_le h⟩ } :: rest))
        | r => r
    else
      freqsLoop ssz safe_freqs ms fi

/-- `get_freqs_by_screen_size`: `NotFound` when the `XRRRates` reply is null or
empty, or when `XRRGetScreenResources` is null; otherwise the correlation loop
over the mode descriptors, starting the match counter at 0. -/
def get_freqs_by_screen_size (rates : Option (List Int)) (resources : Option (List ModeInfo))
    (ssz : ScreenSize) : Option (Except ErrKind (List RefreshRate)) :=
  match rates with
  | none => some (.error .notFound)
  | some safe_freqs =>
    if safe_freqs.length = 0 then
      some (.error .notFound)
    else
      match resources with
      | none => some (.error .notFound)
      | some modes => freqsLoop ssz safe_freqs modes 0

/-- Insert `a` into an already-sorted list, before the first element `b` with
`le a b`: the insertion step of a stable sort. -/
def orderedInsert (le : α → α → Bool) (a : α) : List α → List α
  | [] => [a]
  | b :: l => if le a b then a :: b :: l else b :: orderedInsert le a l

/-- Rust's `slice::sort_by` is specified as a *stable* sort by the given
comparator, and a stable sort's output is uniquely determined by the
comparator's total preorder; it is embedded here as stable insertion sort,
with `le a b` meaning "comparator(a, b) ≠ Greater". -/
def sort_by (le : α → α → Bool) : List α → List α
  | [] => []
  | a :: l => orderedInsert le a (sort_by le l)

/-- `a.width * a.height` as the source computes it: `u32` multiplication,
which wraps modulo `2^32` in release builds. -/
def wArea (s : ScreenSize) : Nat :=
  s.width * s.height % 2 ^ 32

/-- The size comparator `|a, b| b_size.cmp(&a_size)` (descending by wrapped
area): `a` may precede `b` iff `wArea b ≤ wArea a`. -/
def sizeLE (a b : ScreenSize) : Bool :=
  decide (wArea b ≤ wArea a)

/-- The rate comparator `|a, b| b.freq.cmp(&a.freq)` (descending by `freq`). -/
def freqLE (a b : RefreshRate) : Bool :=
  decide (b.freq ≤ a.freq)

/-- `sizes.sort_by(...)` followed by `&sizes[0]`: the driver's resolution
selection. -/
def select_size (sizes : List ScreenSize) : Option ScreenSize :=
  (sort_by sizeLE sizes).head?

/-- `freqs.sort_by(...)` followed by `&freqs[0]`: the driver's rate selection. -/
def select_freq (freqs : List RefreshRate) : Option RefreshRate :=
  (sort_by freqLE freqs).head?

/-- The driver (`main`) up to the arguments of the apply call:
enumerate sizes (`Unsupported` when the catalog is empty), sort descending by
wrapped area, fetch and correlate the rates for `sizes[0]`, sort descending by
frequency, and read `&freqs[0]`.  The `.ok` value carries exactly the data
subsequently passed to `XRRSetScreenConfigAndRate`; an `.error` run never
reaches that call.  The outer `Option` is `none` when the run panics: the
unguarded `&freqs[0]` on an empty rate list, or a division by zero inside
`get_freqs_by_screen_size`. -/
def main_run (srv : ServerState) : Option (Except ErrKind Selection) :=
  match get_sizes srv.rawSizes with
  | .error e => some (.error e)
  | .ok sizes =>
    if sizes.isEmpty then
      some (.error .unsupported)
    else
      match (sort_by sizeLE sizes).head? with
      | none => none
      | some max_size =>
        match get_freqs_by_screen_size (srv.rawRates max_size.size_index) srv.modes max_size with
        | none => none
        | some (.error e) => some (.error e)
        | some (.ok freqs) =>
          match (sort_by freqLE freqs).head? with
          | none => none
          | some max_freq =>
            some (.ok { size_index := max_size.size_index,
                        freq_index := max_freq.freq_index,
                        width := max_size.width,
                        height := max_size.height,
                        freq := max_freq.freq })

/-! ## Properties of the stable sort -/

theorem orderedInsert_ne_nil (le : α → α → Bool) (a : α) (l : List α) :
    orderedInsert le a l ≠ [] := by
  cases l with
  | nil => simp [orderedInsert]
  | cons b t =>
    simp only [orderedInsert]
    split <;> simp

theorem sort_by_eq_nil_iff (le : α → α → Bool) (l : List α) :
    sort_by le l = [] ↔ l = [] := by
  cases l with
  | nil => simp [sort_by]
  | cons a t =>
    simp only [sort_by]
    constructor
    · intro h
      exact absurd h (orderedInsert_ne_nil le a (sort_by le t))
    · intro h
      simp at h

theorem sort_by_head_of_ne_nil (le : α → α → Bool) (l : List α) (h : l ≠ []) :
    ∃ m, (sort_by le l).head? = some m := by
  cases l with
  | nil => exact absurd rfl h
  | cons a t =>
    cases ho : orderedInsert le a (sort_by le t) with
    | nil => exact absurd ho (orderedInsert_ne_nil le a (sort_by le t))
    | cons y ys => exact ⟨y, by simp [sort_by, ho]⟩

/-- Head of the stable sort descending by `f`: it is an element of the input,
its `f`-value is maximal, and it is the *first* input element attaining that
value (the head of the filter keeping the ties). -/
theorem head_sort_by_max (f : α → Nat) :
    ∀ (l : List α) (m : α),
      (sort_by (fun a b => decide (f b ≤ f a)) l).head? = some m →
      m ∈ l ∧ (∀ b ∈ l, f b ≤ f m) ∧
        (l.filter fun b => decide (f b = f m)).head? = some m := by
  intro l
  induction l with
  | nil =>
    intro m h
    simp [sort_by] at h
  | cons x xs ih =>
    intro m h
    simp only [sort_by] at h
    cases hs : sort_by (fun a b => decide (f b ≤ f a)) xs with
    | nil =>
      have hxs : xs = [] := (sort_by_eq_nil_iff _ _).mp hs
      subst hxs
      simp only [sort_by, orderedInsert, List.head?] at h
      cases h
      exact ⟨by simp, by simp, by simp [List.filter]⟩
    | cons y ys =>
      rw [hs] at h
      obtain ⟨hy_mem, hy_max, hy_filter⟩ := ih y (by rw [hs]; rfl)
      simp only [orderedInsert] at h
      by_cases hle : f y ≤ f x
      · simp only [decide_eq_true_eq, hle, if_pos] at h
        simp only [List.head?_cons, Option.some.injEq] at h
        subst h
        refine ⟨by simp, ?_, ?_⟩
        · intro b hb
          rcases List.mem_cons.mp hb with hb | hb
          · subst hb; exact le_refl _
          · exact le_trans (hy_max b hb) hle
        · simp [List.filter_cons]
      · simp only [decide_eq_true_eq, hle, if_neg, not_false_iff] at h
        simp only [List.head?_cons, Option.some.injEq] at h
        subst h
        have hxy : f x < f y := Nat.lt_of_not_le hle
        refine ⟨List.mem_cons_of_mem x hy_mem, ?_, ?_⟩
        · intro b hb
          rcases List.mem_cons.mp hb with hb | hb
          · subst hb; exact Nat.le_of_lt hxy
          · exact hy_max b hb
        · rw [List.filter_cons]
          have hne : ¬ (f x = f y) := Nat.ne_of_lt hxy
          rw [if_neg (by simpa using hne)]
          exact hy_filter

/-! ## Properties of the size-narrowing loop -/

theorem u32_try_from_eq_some {v : Int} (h : (u32_try_from v).isSome) :
    u32_try_from v = some v.toNat := by
  by_cases hc : 0 ≤ v ∧ v < 2 ^ 32
  · unfold u32_try_from
    rw [if_pos hc]
  · unfold u32_try_from at h
    rw [if_neg hc] at h
    simp at h

theorem sizesLoop_ok :
    ∀ (raws : List RawSize) (i : Nat),
      (∀ r ∈ raws, (u32_try_from r.width).isSome ∧ (u32_try_from r.height).isSome) →
      sizesLoop raws i = .ok (List.zipWith
        (fun r k => { width := r.width.toNat, height := r.height.toNat, size_index := k })
        raws (List.range' i raws.length)) := by
  intro raws
  induction raws with
  | nil =>
    intro i _
    simp [sizesLoop]
  | cons r rs ih =>
    intro i hall
    obtain ⟨hw, hh⟩ := hall r (by simp)
    have htail : ∀ x ∈ rs, (u32_try_from x.width).isSome ∧ (u32_try_from x.height).isSome :=
      fun x hx => hall x (List.mem_cons_of_mem r hx)
    simp only [sizesLoop, u32_try_from_eq_some hw, u32_try_from_eq_some hh, ih (i + 1) htail,
      List.length_cons, List.range'_succ, List.zipWith]

theorem sizesLoop_err :
    ∀ (raws : List RawSize) (i : Nat),
      (∃ r ∈ raws, u32_try_from r.width = none ∨ u32_try_from r.height = none) →
      sizesLoop raws i = .error .other := by
  intro raws
  induction raws with
  | nil =>
    intro i h
    simp at h
  | cons r rs ih =>
    intro i h
    rcases hw : u32_try_from r.width with _ | w <;> rcases hh : u32_try_from r.height with _ | hgt
    · simp [sizesLoop, hw, hh]
    · simp [sizesLoop, hw, hh]
    · simp [sizesLoop, hw, hh]
    · have htail : ∃ x ∈ rs, u32_try_from x.width = none ∨ u32_try_from x.height = none := by
        obtain ⟨x, hx, hbad⟩ := h
        rcases List.mem_cons.mp hx with rfl | hx
        · rcases hbad with hb | hb
          · rw [hb] at hw; cases hw
          · rw [hb] at hh; cases hh
        · exact ⟨x, hx, hbad⟩
      simp only [sizesLoop, hw, hh, ih (i + 1) htail]

/-! ## Properties of the rate-correlation loop -/

theorem freqsLoop_ok (ssz : ScreenSize) (safe_freqs : List Int) :
    ∀ (ms : List ModeInfo) (fi : Nat),
      (∀ m ∈ ms, m.hTotal * m.vTotal ≠ 0) →
      fi + (ms.filter (mode_matches ssz)).length ≤ safe_freqs.length →
      freqsLoop ssz safe_freqs ms fi = some (.ok (List.zipWith
        (fun m r => { freq := mode_rate m, freq_index := r })
        (ms.filter (mode_matches ssz)) (safe_freqs.drop fi))) := by
  intro ms
  induction ms with
  | nil =>
    intro fi _ _
    simp [freqsLoop]
  | cons m ms ih =>
    intro fi hdiv hlen
    have hm := hdiv m (by simp)
    have htail : ∀ y ∈ ms, y.hTotal * y.vTotal ≠ 0 :=
      fun y hy => hdiv y (List.mem_cons_of_mem m hy)
    simp only [freqsLoop, if_neg hm]
    by_cases hmatch : mode_matches ssz m = true
    · rw [if_pos hmatch]
      rw [List.filter_cons_of_pos hmatch] at hlen ⊢
      have hfi : fi < safe_freqs.length := by
        simp only [List.length_cons] at hlen
        omega
      rw [dif_neg (Nat.not_le_of_lt hfi)]
      rw [ih (fi + 1) htail (by simp only [List.length_cons] at hlen; omega)]
      rw [List.drop_eq_getElem_cons hfi]
      simp [List.zipWith, List.get_eq_getElem]
    · rw [if_neg hmatch]
      rw [List.filter_cons_of_neg hmatch] at hlen ⊢
      exact ih fi htail hlen

theorem freqsLoop_invalidData (ssz : ScreenSize) (safe_freqs : List Int) :
    ∀ (pre : List ModeInfo) (m : ModeInfo) (post : List ModeInfo) (fi : Nat),
      (∀ x ∈ pre, x.hTotal * x.vTotal ≠ 0) →
      m.hTotal * m.vTotal ≠ 0 →
      mode_matches ssz m = true →
      fi + (pre.filter (mode_matches ssz)).length = safe_freqs.length →
      freqsLoop ssz safe_freqs (pre ++ m :: post) fi = some (.error .invalidData) := by
  intro pre
  induction pre with
  | nil =>
    intro m post fi _ hm hmatch hlen
    simp only [List.filter_nil, List.length_nil, Nat.add_zero] at hlen
    simp only [List.nil_append, freqsLoop, if_neg hm, if_pos hmatch]
    rw [dif_pos (Nat.le_of_eq hlen.symm)]
  | cons x pre ih =>
    intro m post fi hpre hm hmatch hlen
    have hx := hpre x (by simp)
    have htail : ∀ y ∈ pre, y.hTotal * y.vTotal ≠ 0 :=
      fun y hy => hpre y (List.mem_cons_of_mem x hy)
    simp only [List.cons_append, List.append_eq, freqsLoop, if_neg hx]
    by_cases hxm : mode_matches ssz x = true
    · rw [if_pos hxm]
      rw [List.filter_cons_of_pos hxm] at hlen
      have hfi : fi < safe_freqs.length := by
        simp only [List.length_cons] at hlen
        omega
      rw [dif_neg (Nat.not_le_of_lt hfi)]
      rw [ih m post (fi + 1) htail hm hmatch
        (by simp only [List.length_cons] at hlen; omega)]
    · rw [if_neg hxm]
      rw [List.filter_cons_of_neg hxm] at hlen
      exact ih m post fi htail hm hmatch hlen

theorem freqsLoop_isSome (ssz : ScreenSize) (safe_freqs : List Int) :
    ∀ (ms : List ModeInfo) (fi : Nat),
      (∀ m ∈ ms, m.hTotal * m.vTotal ≠ 0) →
      (freqsLoop ssz safe_freqs ms fi).isSome := by
  intro ms
  induction ms with
  | nil =>
    intro fi _
    simp [freqsLoop]
  | cons m ms ih =>
    intro fi hdiv
    have htail : ∀ y ∈ ms, y.hTotal * y.vTotal ≠ 0 :=
      fun y hy => hdiv y (List.mem_cons_of_mem m hy)
    simp only [freqsLoop, if_neg (hdiv m (by simp))]
    by_cases hmatch : mode_matches ssz m = true
    · rw [if_pos hmatch]
      by_cases hfi : safe_freqs.length ≤ fi
      · rw [dif_pos hfi]
        rfl
      · rw [dif_neg hfi]
        have hrec := ih (fi + 1) htail
        cases hr : freqsLoop ssz safe_freqs ms (fi + 1) with
        | none =>
          rw [hr] at hrec
          cases hrec
        | some v =>
          cases v <;> rfl
    · rw [if_neg hmatch]
      exact ih fi htail

instance {ε α : Type _} [DecidableEq ε] [DecidableEq α] : DecidableEq (Except ε α) := fun x y =>
  match x, y with
  | .ok a, .ok b =>
    if h : a = b then .isTrue (by rw [h]) else .isFalse (by intro hc; cases hc; exact h rfl)
  | .error a, .error b =>
    if h : a = b then .isTrue (by rw [h]) else .isFalse (by intro hc; cases hc; exact h rfl)
  | .ok _, .error _ => .isFalse (fun hc => Except.noConfusion hc)
  | .error _, .ok _ => .isFalse (fun hc => Except.noConfusion hc)

/-- Reduction of `get_freqs_by_screen_size` past the null/empty checks. -/
theorem get_freqs_unfold (ssz : ScreenSize) (rs : List Int) (modes : List ModeInfo)
    (h : rs.length ≠ 0) :
    get_freqs_by_screen_size (some rs) (some modes) ssz = freqsLoop ssz rs modes 0 := by
  simp [get_freqs_by_screen_size, h]

/-- Reduction of `get_freqs_by_screen_size` for an empty raw-rate list. -/
theorem get_freqs_empty_rates (ssz : ScreenSize) (rs : List Int)
    (resources : Option (List ModeInfo)) (h : rs.length = 0) :
    get_freqs_by_screen_size (some rs) resources ssz = some (.error .notFound) := by
  simp [get_freqs_by_screen_size, h]

/-! ## Claims -/

/-- C1: for a chosen `ScreenSize` and server-reported raw-rate list and
mode-descriptor list, `get_freqs_by_screen_size` walks the descriptors in
order and pairs each dimension-matching descriptor — positionally, by the
running match counter — with the next unconsumed raw rate value, yielding
`RefreshRate{freq := dotClock / (hTotal * vTotal) truncated to u32,
freq_index := raw_value[counter]}` in match-encounter order.  The pairing is
exactly `zipWith` of the matching descriptors against the raw-rate list.
Hypotheses delimit the successful path: a non-empty raw list (an empty one is
rejected with `NotFound` before the walk), no zero timing product (which would
panic, claim C10), and no raw-rate exhaustion (`InvalidData`, claim C2). -/
theorem get_freqs_pairs_positionally (ssz : ScreenSize) (rs : List Int)
    (modes : List ModeInfo)
    (hne : rs ≠ [])
    (hdiv : ∀ m ∈ modes, m.hTotal * m.vTotal ≠ 0)
    (hcount : (modes.filter (mode_matches ssz)).length ≤ rs.length) :
    get_freqs_by_screen_size (some rs) (some modes) ssz =
      some (.ok (List.zipWith (fun m r => { freq := mode_rate m, freq_index := r })
        (modes.filter (mode_matches ssz)) rs)) := by
  rw [get_freqs_unfold ssz rs modes (by simpa using hne)]
  have h := freqsLoop_ok ssz rs modes 0 hdiv (by simpa using hcount)
  simpa using h

theorem get_freqs_pairs_positionally_witness :
    get_freqs_by_screen_size (some [60, 75])
      (some [⟨10, 1920, 1080, 138500000, 2080, 1111⟩,
             ⟨11, 800, 600, 40000000, 1056, 628⟩,
             ⟨12, 1920, 1080, 174500000, 2080, 1120⟩])
      ⟨1920, 1080, 0⟩ =
      some (.ok (List.zipWith (fun m r => { freq := mode_rate m, freq_index := r })
        (List.filter (mode_matches ⟨1920, 1080, 0⟩)
          [⟨10, 1920, 1080, 138500000, 2080, 1111⟩,
           ⟨11, 800, 600, 40000000, 1056, 628⟩,
           ⟨12, 1920, 1080, 174500000, 2080, 1120⟩]) [60, 75])) :=
  get_freqs_pairs_positionally ⟨1920, 1080, 0⟩ [60, 75] _
    (by decide) (by decide) (by decide)

/-- C2 (amended): when the raw-rate list is non-empty (an empty one already
fails with `NotFound` in step 1) and no timing product up to the failing
descriptor is zero (a zero one panics first, claim C10), a walk that meets one
more dimension-matching descriptor than there are raw rate values fails with
`InvalidData` on that first pairing attempt past the raw list's length: the
descriptors after the failing one (`post`) are wholly unconstrained, so
nothing is truncated or wrapped. -/
theorem get_freqs_invalidData (ssz : ScreenSize) (rs : List Int)
    (pre : List ModeInfo) (m : ModeInfo) (post : List ModeInfo)
    (hne : rs ≠ [])
    (hpre : ∀ x ∈ pre, x.hTotal * x.vTotal ≠ 0)
    (hm : m.hTotal * m.vTotal ≠ 0)
    (hmatch : mode_matches ssz m = true)
    (hlen : (pre.filter (mode_matches ssz)).length = rs.length) :
    get_freqs_by_screen_size (some rs) (some (pre ++ m :: post)) ssz =
      some (.error .invalidData) := by
  rw [get_freqs_unfold ssz rs (pre ++ m :: post) (by simpa using hne)]
  exact freqsLoop_invalidData ssz rs pre m post 0 hpre hm hmatch (by simpa using hlen)

/-- C2, counterexample to the unrestricted claim: with an *empty* raw-rate
list and one matching descriptor the match count (1) exceeds the raw-list
length (0), yet the call fails with `NotFound` (the step-1 empty-list check),
not `InvalidData`. -/
theorem get_freqs_invalidData_cex :
    (([⟨10, 1920, 1080, 138500000, 2080, 1111⟩] : List ModeInfo).filter
        (mode_matches ⟨1920, 1080, 0⟩)).length > ([] : List Int).length ∧
    get_freqs_by_screen_size (some []) (some [⟨10, 1920, 1080, 138500000, 2080, 1111⟩])
        ⟨1920, 1080, 0⟩ = some (.error .notFound) ∧
    ErrKind.notFound ≠ ErrKind.invalidData := by
  decide

theorem get_freqs_invalidData_witness :
    get_freqs_by_screen_size (some [60])
      (some ([⟨10, 1920, 1080, 138500000, 2080, 1111⟩] ++
             ⟨12, 1920, 1080, 174500000, 2080, 1120⟩ :: []))
      ⟨1920, 1080, 0⟩ = some (.error .invalidData) :=
  get_freqs_invalidData ⟨1920, 1080, 0⟩ [60] _ _ []
    (by decide) (by decide) (by decide) (by decide) (by decide)

/-- C3 (amended): the driver compares catalog entries by the `u32` product
`width * height`, which in release builds wraps modulo `2^32`; on any
non-empty catalog all of whose products fit in 32 bits (so no wrapping
occurs) the selected resolution's area is greatest, and among the entries
tied at that area the selected one is the first encountered (it heads the
filter keeping the ties in catalog order). -/
theorem select_size_area_max (l : List ScreenSize)
    (hne : l ≠ [])
    (hnof : ∀ s ∈ l, s.width * s.height < 2 ^ 32) :
    ∃ m, select_size l = some m ∧ m ∈ l ∧
      (∀ b ∈ l, b.width * b.height ≤ m.width * m.height) ∧
      (l.filter fun b => decide (b.width * b.height = m.width * m.height)).head? =
        some m := by
  obtain ⟨m, hm⟩ := sort_by_head_of_ne_nil sizeLE l hne
  have hm' : (sort_by (fun a b => decide (wArea b ≤ wArea a)) l).head? = some m := hm
  obtain ⟨hmem, hmax, hfilter⟩ := head_sort_by_max wArea l m hm'
  have harea : ∀ s ∈ l, wArea s = s.width * s.height := fun s hs =>
    Nat.mod_eq_of_lt (hnof s hs)
  refine ⟨m, hm, hmem, ?_, ?_⟩
  · intro b hb
    have h := hmax b hb
    rwa [harea b hb, harea m hmem] at h
  · have hcongr : List.filter (fun b => decide (wArea b = wArea m)) l =
        List.filter (fun b => decide (b.width * b.height = m.width * m.height)) l :=
      List.filter_congr (fun b hb => by rw [harea b hb, harea m hmem])
    rw [← hcongr]
    exact hfilter

/-- C3, counterexample to the unrestricted claim: the catalog
`[(65536, 65536), (100, 100)]` is produced by `get_sizes` (both dimensions
fit `u32`), but `65536 * 65536` wraps to `0` under `u32` multiplication, so
the driver selects the `100 × 100` entry whose true area is far smaller. -/
theorem select_size_area_cex :
    get_sizes (some [⟨65536, 65536⟩, ⟨100, 100⟩]) =
      .ok [⟨65536, 65536, 0⟩, ⟨100, 100, 1⟩] ∧
    select_size [⟨65536, 65536, 0⟩, ⟨100, 100, 1⟩] = some ⟨100, 100, 1⟩ ∧
    (100 * 100 : Nat) < 65536 * 65536 := by
  decide

theorem select_size_area_max_witness :
    ∃ m, select_size [⟨1920, 1080, 0⟩, ⟨3840, 2160, 1⟩, ⟨1280, 720, 2⟩] = some m ∧
      m ∈ ([⟨1920, 1080, 0⟩, ⟨3840, 2160, 1⟩, ⟨1280, 720, 2⟩] : List ScreenSize) ∧
      (∀ b ∈ ([⟨1920, 1080, 0⟩, ⟨3840, 2160, 1⟩, ⟨1280, 720, 2⟩] : List ScreenSize),
        b.width * b.height ≤ m.width * m.height) ∧
      (([⟨1920, 1080, 0⟩, ⟨3840, 2160, 1⟩, ⟨1280, 720, 2⟩] : List ScreenSize).filter
        fun b => decide (b.width * b.height = m.width * m.height)).head? = some m :=
  select_size_area_max [⟨1920, 1080, 0⟩, ⟨3840, 2160, 1⟩, ⟨1280, 720, 2⟩]
    (by decide) (by decide)

/-- C4 (amended): `get_sizes` fails with `NotFound` when the server's size
list is null; a non-null but *empty* list is not rejected there — the source
only checks `sizes.is_null()` — and yields the empty catalog (which the
driver then rejects with `Unsupported`, claim C7). -/
theorem get_sizes_null_notFound :
    get_sizes none = .error .notFound ∧ get_sizes (some []) = .ok [] :=
  ⟨rfl, rfl⟩

/-- C4, counterexample to the claim as stated: on the empty (non-null) list
`get_sizes` returns `Ok` of the empty catalog instead of failing with
`NotFound`. -/
theorem get_sizes_empty_cex :
    get_sizes (some []) = .ok [] ∧ get_sizes (some []) ≠ .error .notFound := by
  decide

/-- C5: if any raw width or height fails the `u32` narrowing, `get_sizes`
fails with `Other` and returns no catalog at all (the `Except` carries no
partial data); if every one fits, the full catalog is returned and each
entry's `size_index` is its position in the server's list. -/
theorem get_sizes_narrowing (raws : List RawSize) :
    ((∃ r ∈ raws, u32_try_from r.width = none ∨ u32_try_from r.height = none) →
      get_sizes (some raws) = .error .other) ∧
    ((∀ r ∈ raws, (u32_try_from r.width).isSome ∧ (u32_try_from r.height).isSome) →
      get_sizes (some raws) = .ok (List.zipWith
        (fun r k => { width := r.width.toNat, height := r.height.toNat, size_index := k })
        raws (List.range' 0 raws.length))) :=
  ⟨fun h => sizesLoop_err raws 0 h, fun h => sizesLoop_ok raws 0 h⟩

theorem get_sizes_narrowing_witness :
    get_sizes (some [⟨-1, 1080⟩]) = .error .other ∧
    get_sizes (some [⟨1920, 1080⟩, ⟨800, 600⟩]) =
      .ok [⟨1920, 1080, 0⟩, ⟨800, 600, 1⟩] :=
  ⟨(get_sizes_narrowing [⟨-1, 1080⟩]).1 (by decide),
   ((get_sizes_narrowing [⟨1920, 1080⟩, ⟨800, 600⟩]).2 (by decide)).trans (by decide)⟩

/-- C6: on any non-empty rate catalog the driver selects a `RefreshRate`
whose `freq` is greatest, and among the entries tied at that frequency the
selected one is the first encountered (it heads the filter keeping the ties
in catalog order). -/
theorem select_freq_max (l : List RefreshRate) (hne : l ≠ []) :
    ∃ m, select_freq l = some m ∧ m ∈ l ∧ (∀ b ∈ l, b.freq ≤ m.freq) ∧
      (l.filter fun b => decide (b.freq = m.freq)).head? = some m := by
  obtain ⟨m, hm⟩ := sort_by_head_of_ne_nil freqLE l hne
  have hm' : (sort_by (fun a b => decide (RefreshRate.freq b ≤ RefreshRate.freq a)) l).head? =
      some m := hm
  obtain ⟨hmem, hmax, hfilter⟩ := head_sort_by_max RefreshRate.freq l m hm'
  exact ⟨m, hm, hmem, hmax, hfilter⟩

theorem select_freq_max_witness :
    ∃ m, select_freq [⟨59, 60⟩, ⟨75, 75⟩, ⟨144, 144⟩] = some m ∧
      m ∈ ([⟨59, 60⟩, ⟨75, 75⟩, ⟨144, 144⟩] : List RefreshRate) ∧
      (∀ b ∈ ([⟨59, 60⟩, ⟨75, 75⟩, ⟨144, 144⟩] : List RefreshRate), b.freq ≤ m.freq) ∧
      (([⟨59, 60⟩, ⟨75, 75⟩, ⟨144, 144⟩] : List RefreshRate).filter
        fun b => decide (b.freq = m.freq)).head? = some m :=
  select_freq_max [⟨59, 60⟩, ⟨75, 75⟩, ⟨144, 144⟩] (by decide)

/-- C7: when the resolution catalog enumerates zero sizes the run fails with
`Unsupported`; the `.ok` value of `main_run` is the only path to the
set-configuration-and-rate call, so an `.error` run never issues it. -/
theorem empty_catalog_unsupported (srv : ServerState)
    (h : get_sizes srv.rawSizes = .ok []) :
    main_run srv = some (.error .unsupported) := by
  simp [main_run, h]

theorem empty_catalog_unsupported_witness :
    main_run { rawSizes := some [], rawRates := fun _ => none, modes := none } =
      some (.error .unsupported) :=
  empty_catalog_unsupported _ rfl

/-- C8: the whole selection is a pure function of the three server-reported
catalogs, so two runs observing identical catalogs produce identical
`Selection` data (size index, rate index, dimensions, frequency) toward the
apply call. -/
theorem selection_deterministic (s₁ s₂ : ServerState)
    (hs : s₁.rawSizes = s₂.rawSizes)
    (hr : ∀ i, s₁.rawRates i = s₂.rawRates i)
    (hm : s₁.modes = s₂.modes) :
    main_run s₁ = main_run s₂ := by
  suffices h : s₁ = s₂ by rw [h]
  obtain ⟨a₁, b₁, c₁⟩ := s₁
  obtain ⟨a₂, b₂, c₂⟩ := s₂
  have hs' : a₁ = a₂ := hs
  have hb' : b₁ = b₂ := funext hr
  have hm' : c₁ = c₂ := hm
  rw [hs', hb', hm']

theorem selection_deterministic_witness :
    main_run { rawSizes := some [⟨1920, 1080⟩], rawRates := fun _ => some [60],
               modes := some [] } =
      main_run { rawSizes := some [⟨1920, 1080⟩], rawRates := fun _ => some [60],
                 modes := some [] } :=
  selection_deterministic _ _ rfl (fun _ => rfl) rfl

/-- C9: when the raw-rate list for the selected size is non-empty but no mode
descriptor matches its dimensions, `get_freqs_by_screen_size` succeeds with
the empty rate list, and the driver's subsequent `&freqs[0]` is an unguarded
out-of-bounds index: the run panics (`none`) instead of reporting an error. -/
theorem no_matching_mode_panics (srv : ServerState) (sizes : List ScreenSize)
    (max_size : ScreenSize) (rs : List Int) (modes : List ModeInfo)
    (hsizes : get_sizes srv.rawSizes = .ok sizes)
    (hne : sizes ≠ [])
    (hsel : (sort_by sizeLE sizes).head? = some max_size)
    (hrates : srv.rawRates max_size.size_index = some rs)
    (hrs : rs ≠ [])
    (hmodes : srv.modes = some modes)
    (hdiv : ∀ m ∈ modes, m.hTotal * m.vTotal ≠ 0)
    (hnomatch : ∀ m ∈ modes, mode_matches max_size m = false) :
    get_freqs_by_screen_size (some rs) (some modes) max_size = some (.ok []) ∧
    main_run srv = none := by
  have hfilter : modes.filter (mode_matches max_size) = [] :=
    List.filter_eq_nil_iff.mpr (fun m hm => by rw [hnomatch m hm]; exact Bool.false_ne_true)
  have hfreqs : get_freqs_by_screen_size (some rs) (some modes) max_size =
      some (.ok []) := by
    rw [get_freqs_unfold max_size rs modes (by simpa using hrs)]
    have h := freqsLoop_ok max_size rs modes 0 hdiv (by rw [hfilter]; simp)
    rw [h, hfilter]
    simp
  refine ⟨hfreqs, ?_⟩
  have hie : sizes.isEmpty = false := by
    cases sizes with
    | nil => exact absurd rfl hne
    | cons a t => rfl
  simp only [main_run, hsizes, hie, hsel, hrates, hmodes, hfreqs]
  simp [sort_by]

theorem no_matching_mode_panics_witness :
    get_freqs_by_screen_size (some [60]) (some [⟨11, 800, 600, 40000000, 1056, 628⟩])
      ⟨1920, 1080, 0⟩ = some (.ok []) ∧
    main_run { rawSizes := some [⟨1920, 1080⟩], rawRates := fun _ => some [60],
               modes := some [⟨11, 800, 600, 40000000, 1056, 628⟩] } = none :=
  no_matching_mode_panics _ [⟨1920, 1080, 0⟩] ⟨1920, 1080, 0⟩ [60]
    [⟨11, 800, 600, 40000000, 1056, 628⟩]
    rfl (by decide) rfl rfl (by decide) rfl (by decide) (by decide)

/-- C10: the refresh-rate division is evaluated for *every* walked descriptor
before the dimension test and its divisor `hTotal * vTotal` is unguarded:
(1) when every descriptor's timing product is non-zero the computation is
total (no panic, `isSome`); (2) a leading descriptor with a zero product —
matching the target dimensions or not — makes the run panic (`none`). -/
theorem division_unguarded :
    (∀ (ssz : ScreenSize) (rs : List Int) (modes : List ModeInfo),
      (∀ m ∈ modes, m.hTotal * m.vTotal ≠ 0) →
      (get_freqs_by_screen_size (some rs) (some modes) ssz).isSome) ∧
    (∀ (ssz : ScreenSize) (rs : List Int) (m : ModeInfo) (rest : List ModeInfo),
      rs ≠ [] →
      m.hTotal * m.vTotal = 0 →
      get_freqs_by_screen_size (some rs) (some (m :: rest)) ssz = none) := by
  constructor
  · intro ssz rs modes hdiv
    by_cases h0 : rs.length = 0
    · rw [get_freqs_empty_rates ssz rs (some modes) h0]
      rfl
    · rw [get_freqs_unfold ssz rs modes h0]
      exact freqsLoop_isSome ssz rs modes 0 hdiv
  · intro ssz rs m rest hne h0
    rw [get_freqs_unfold ssz rs (m :: rest) (by simpa using hne)]
    simp only [freqsLoop, if_pos h0]

theorem division_unguarded_witness :
    (get_freqs_by_screen_size (some [60])
      (some [⟨10, 1920, 1080, 138500000, 2080, 1111⟩]) ⟨1920, 1080, 0⟩).isSome ∧
    get_freqs_by_screen_size (some [60])
      (some [⟨10, 800, 600, 40000000, 0, 628⟩]) ⟨1920, 1080, 0⟩ = none :=
  ⟨division_unguarded.1 ⟨1920, 1080, 0⟩ [60] _ (by decide),
   division_unguarded.2 ⟨1920, 1080, 0⟩ [60] _ [] (by decide) (by decide)⟩

end AutoDisplay
